import Mathlib

/-!
Verification development for the appleapi-core library.

Embedded components (byte strings are modelled as `List Nat`, each element a
byte < 256; times are `Nat` nanoseconds since the Unix epoch, matching Go's
`time.Time` resolution; errors are `Nat` identifiers):

* `base64url`       — Go `base64.RawURLEncoding.EncodeToString` (token/jwt.go)
* `jsonHeader`, `jsonPayload` — `json.Marshal` of the `Header`/`Payload`
  structs (token/jwt.go), including `omitempty` on the payload fields
* `signedString`    — `JWTClaims.SignedString` (token/jwt.go lines 32-50)
* `signerECDSASign` — `SignerECDSA.Sign` (token/signer.go lines 28-58)
* `getToken`        — `TokenProvider.GetToken` (token provider source)
* `newClientG` etc. — `NewClient` and the `Option` pipeline (client.go)
* `newClientF` etc. — the functional-option `NewClient` variant (part_001)
* `clientDo`        — `Client.Do` (client.go lines 180-191)
-/

namespace AppleAPI

/-! ### Definitions: base64url (Go encoding/base64 RawURLEncoding) -/

/-- One base64url alphabet character (RFC 4648 URL-safe alphabet used by Go
`base64.RawURLEncoding`): maps a sextet value to its ASCII code. -/
def b64char (n : Nat) : Nat :=
  if n < 26 then 65 + n
  else if n < 52 then 97 + (n - 26)
  else if n < 62 then 48 + (n - 52)
  else if n = 62 then 45
  else 95

/-- Inverse of `b64char` on sextet values, used only to prove that the
encoding is injective. -/
def b64inv (c : Nat) : Nat :=
  if 65 ≤ c ∧ c ≤ 90 then c - 65
  else if 97 ≤ c ∧ c ≤ 122 then c - 97 + 26
  else if 48 ≤ c ∧ c ≤ 57 then c - 48 + 52
  else if c = 45 then 62
  else 63

/-- Go `base64.RawURLEncoding.EncodeToString`: unpadded base64url encoding of
a byte list (used in token/jwt.go lines 42 and 49). -/
def base64url : List Nat → List Nat
  | [] => []
  | [x] => [b64char (x / 4), b64char (x % 4 * 16)]
  | [x, y] => [b64char (x / 4), b64char (x % 4 * 16 + y / 16), b64char (y % 16 * 4)]
  | x :: y :: z :: rest =>
      b64char (x / 4) :: b64char (x % 4 * 16 + y / 16) ::
        b64char (y % 16 * 4 + z / 64) :: b64char (z % 64) :: base64url rest

/-- Decoder for `base64url`, used only to establish injectivity via a
round-trip proof. -/
def base64urlDecode : List Nat → List Nat
  | a :: b :: c :: d :: rest =>
      (b64inv a * 4 + b64inv b / 16) :: (b64inv b % 16 * 16 + b64inv c / 4) ::
        (b64inv c % 4 * 64 + b64inv d) :: base64urlDecode rest
  | [a, b] => [b64inv a * 4 + b64inv b / 16]
  | [a, b, c] => [b64inv a * 4 + b64inv b / 16, b64inv b % 16 * 16 + b64inv c / 4]
  | _ => []

/-! ### Definitions: JSON marshalling of Header and Payload -/

/-- Lower-case hexadecimal digit, as produced by Go's JSON encoder in
`\u00xx` escapes. -/
def hexDigit (n : Nat) : Nat := if n < 10 then 48 + n else 97 + (n - 10)

/-- Go `encoding/json` escaping of one byte of a string value: `"`, `\`,
newline, carriage return and tab get two-character escapes; other control
bytes and the HTML-escaped bytes `<`, `>`, `&` become `\u00xx`; every other
byte is emitted unchanged (multi-byte UTF-8 sequences pass through
byte-wise, which matches Go for all characters these claims involve). -/
def escapeByte (b : Nat) : List Nat :=
  if b = 34 then [92, 34]
  else if b = 92 then [92, 92]
  else if b = 10 then [92, 110]
  else if b = 13 then [92, 114]
  else if b = 9 then [92, 116]
  else if b < 32 ∨ b = 60 ∨ b = 62 ∨ b = 38 then
    [92, 117, 48, 48, hexDigit (b / 16), hexDigit (b % 16)]
  else [b]

/-- JSON string-value escaping applied byte-wise. -/
def jsonEscape (s : List Nat) : List Nat :=
  s.foldr (fun b acc => escapeByte b ++ acc) []

/-- A JSON string literal: quote, escaped contents, quote. -/
def jsonStringLit (s : List Nat) : List Nat := [34] ++ jsonEscape s ++ [34]

/-- Decimal digits (ASCII) of a natural number, most significant first:
the integer formatting used by Go `encoding/json` for the `iat` claim. -/
def natDigits (n : Nat) : List Nat :=
  if h : n < 10 then [48 + n]
  else natDigits (n / 10) ++ [48 + n % 10]
decreasing_by exact Nat.div_lt_self (by omega) (by omega)

/-- Value of an ASCII digit list, used to prove `natDigits` injective. -/
def digitsVal (l : List Nat) : Nat :=
  l.foldl (fun acc d => acc * 10 + (d - 48)) 0

/-- ASCII bytes of the key `"iss":`. -/
def issKey : List Nat := [34, 105, 115, 115, 34, 58]

/-- ASCII bytes of the key `"iat":`. -/
def iatKey : List Nat := [34, 105, 97, 116, 34, 58]

/-- ASCII bytes of the key `"alg":`. -/
def algKey : List Nat := [34, 97, 108, 103, 34, 58]

/-- ASCII bytes of the key `"kid":`. -/
def kidKey : List Nat := [34, 107, 105, 100, 34, 58]

/-- `json.Marshal` of the `Payload` struct (token/jwt.go lines 18-21):
fields `iss` and `iat` both carry `omitempty`, so the empty issuer and a
zero issued-at are dropped. -/
def jsonPayload (iss : List Nat) (iat : Nat) : List Nat :=
  if iss = [] then
    if iat = 0 then [123, 125]
    else [123] ++ iatKey ++ natDigits iat ++ [125]
  else
    if iat = 0 then [123] ++ issKey ++ jsonStringLit iss ++ [125]
    else [123] ++ issKey ++ jsonStringLit iss ++ [44] ++ iatKey ++ natDigits iat ++ [125]

/-- `json.Marshal` of the `Header` struct (token/jwt.go lines 12-15): both
fields always present. -/
def jsonHeader (alg kid : List Nat) : List Nat :=
  [123] ++ algKey ++ jsonStringLit alg ++ [44] ++ kidKey ++ jsonStringLit kid ++ [125]

/-! ### Definitions: JWTClaims.SignedString (token/jwt.go lines 32-50) -/

/-- Errors produced by `SignedString`. Each constructor carries the wrapped
underlying error identifier, mirroring Go's `fmt.Errorf("...: %w", err)`,
which adds context but keeps the wrapped error recoverable. -/
inductive JwtError where
  | marshalHeaderFailed (e : Nat)
  | marshalPayloadFailed (e : Nat)
  | signDataFailed (e : Nat)
  deriving DecidableEq

/-- `JWTClaims.SignedString` (token/jwt.go lines 32-50). The `json.Marshal`
outcomes for the `any`-typed header and payload are passed in as `Except`
values; the signer is the `Signer.Sign` function. Go returns the pair
`(token string, error)`, modelled as `List Nat × Option JwtError`; every
error path returns the empty string. -/
def signedString (mh mp : Except Nat (List Nat))
    (signer : List Nat → Except Nat (List Nat)) : List Nat × Option JwtError :=
  match mh with
  | .error e => ([], some (.marshalHeaderFailed e))
  | .ok header =>
    match mp with
    | .error e => ([], some (.marshalPayloadFailed e))
    | .ok payload =>
      match signer (base64url header ++ [46] ++ base64url payload) with
      | .error e => ([], some (.signDataFailed e))
      | .ok sig =>
          (base64url header ++ [46] ++ base64url payload ++ [46] ++ base64url sig,
            none)

/-! ### Definitions: SignerECDSA.Sign (token/signer.go lines 28-58) -/

/-- The part of an `ecdsa.PrivateKey` this component inspects: the bit size
of its curve (`PrivateKey.Curve.Params().BitSize`). -/
structure ECKey where
  curveBits : Nat
  deriving DecidableEq

/-- Errors of `SignerECDSA.Sign`: missing private key, unsupported curve
(carrying the offending bit size), or a wrapped `ecdsa.Sign` failure. -/
inductive SigError where
  | missingKey
  | unsupportedCurve (bits : Nat)
  | ecdsaSignFailed (e : Nat)
  deriving DecidableEq

/-- `big.Int.FillBytes`: fixed-width big-endian byte encoding (width is the
second argument). `ecdsa.Sign` guarantees the components fit the curve's
byte width. -/
def fillBytes (n : Nat) : Nat → List Nat
  | 0 => []
  | w + 1 => fillBytes (n / 256) w ++ [n % 256]

/-- `SignerECDSA.Sign` (token/signer.go lines 28-58). `hashAvailable` is
`se.Hash.Available()`; when false the code substitutes SHA-256, so the
digest function actually used is `sha256Fn`. `ecdsaSignRS` is `ecdsa.Sign`
with its random source, returning the two signature components `(r, s)` or
an error. -/
def signerECDSASign (key : Option ECKey) (hashAvailable : Bool)
    (hashFn sha256Fn : List Nat → List Nat)
    (ecdsaSignRS : List Nat → Except Nat (Nat × Nat)) (data : List Nat) :
    Except SigError (List Nat) :=
  match key with
  | none => .error .missingKey
  | some k =>
    let hf := if hashAvailable then hashFn else sha256Fn
    if k.curveBits ≠ 256 then .error (.unsupportedCurve k.curveBits)
    else
      match ecdsaSignRS (hf data) with
      | .error e => .error (.ecdsaSignFailed e)
      | .ok rs =>
          .ok (fillBytes rs.1 ((k.curveBits + 7) / 8) ++
            fillBytes rs.2 ((k.curveBits + 7) / 8))

/-! ### Definitions: TokenProvider (NewProvider, GetToken) -/

/-- The mutable cache state of a `TokenProvider`, together with its
immutable configuration. Times are nanoseconds since the Unix epoch. -/
structure TokenProviderState where
  keyID : List Nat
  teamID : List Nat
  tokenTTL : Nat
  currentToken : List Nat
  expiresAt : Nat
  deriving DecidableEq

/-- `TokenTTL = 30 * time.Minute` in nanoseconds. -/
def tokenTTLns : Nat := 1800000000000

/-- `NewProvider`: fresh provider with empty cache, zero expiry and the
default TTL. -/
def newProviderState (keyID teamID : List Nat) : TokenProviderState :=
  { keyID := keyID, teamID := teamID, tokenTTL := tokenTTLns,
    currentToken := [], expiresAt := 0 }

/-- Go `time.Time.Unix()`: nanoseconds to whole seconds since the epoch. -/
def unixSeconds (t : Nat) : Nat := t / 1000000000

/-- ASCII bytes of the fixed algorithm identifier `"ES256"`. -/
def algES256 : List Nat := [69, 83, 50, 53, 54]

/-- The error `GetToken` returns when signing fails, wrapping the
`SignedString` error (`fmt.Errorf("failed to sign JWT token: %w", err)`). -/
inductive ProviderError where
  | signJWTFailed (e : JwtError)
  deriving DecidableEq

/-- The `header.payload` signing input built by a mint at time `now`. -/
def signingInput (p : TokenProviderState) (now : Nat) : List Nat :=
  base64url (jsonHeader algES256 p.keyID) ++ [46] ++
    base64url (jsonPayload p.teamID (unixSeconds now))

/-- The compact token minted at time `now` with signature bytes `sig`. -/
def mintedToken (p : TokenProviderState) (now : Nat) (sig : List Nat) : List Nat :=
  signingInput p now ++ [46] ++ base64url sig

/-- `TokenProvider.GetToken`. The double-checked-locking re-validation
after acquiring the write lock re-tests the identical condition, so in this
sequential embedding the two checks collapse into one. Returns the Go pair
`(token, error)` together with the post-call cache state. -/
def getToken (p : TokenProviderState)
    (signer : List Nat → Except Nat (List Nat)) (now : Nat) :
    (List Nat × Option ProviderError) × TokenProviderState :=
  if p.currentToken ≠ [] ∧ now < p.expiresAt then
    ((p.currentToken, none), p)
  else
    match signedString (.ok (jsonHeader algES256 p.keyID))
        (.ok (jsonPayload p.teamID (unixSeconds now))) signer with
    | (_, some e) => (([], some (.signJWTFailed e)), p)
    | (tok, none) =>
        ((tok, none), { p with currentToken := tok, expiresAt := now + p.tokenTTL })

/-! ### Definitions: DefaultHTTPClientInitializer (client.go lines 34-44) -/

/-- `tls.VersionTLS12 = 0x0303`, the Go client-side default minimum. -/
def tlsVersionTLS12 : Nat := 771

/-- `tls.VersionTLS13 = 0x0304`. -/
def tlsVersionTLS13 : Nat := 772

/-- The fields of `tls.Config` this repository sets; `0` is the Go zero
value meaning "not set". -/
structure TLSConf where
  minVersion : Nat
  maxVersion : Nat
  deriving DecidableEq

/-- The transport fields configured by `DefaultHTTPClientInitializer`. -/
structure TransportConf where
  tlsClientConfig : TLSConf
  maxIdleConnsPerHost : Nat
  maxConnsPerHost : Nat
  forceAttemptHTTP2 : Bool
  deriving DecidableEq

/-- Modelled from the Go standard library contract of `crypto/tls`: for a
client, a zero `MinVersion` means the connection's minimum protocol version
defaults to TLS 1.2. -/
def effectiveClientMinVersion (c : TLSConf) : Nat :=
  if c.minVersion = 0 then tlsVersionTLS12 else c.minVersion

/-- The transport built by `DefaultHTTPClientInitializer` (client.go lines
34-44): it sets `TLSClientConfig = &tls.Config{MaxVersion: tls.VersionTLS13}`
(leaving `MinVersion` at its zero value), the per-host connection caps, and
`ForceAttemptHTTP2 = true`. -/
def defaultInitializerTransport : TransportConf :=
  { tlsClientConfig := { minVersion := 0, maxVersion := tlsVersionTLS13 },
    maxIdleConnsPerHost := 100,
    maxConnsPerHost := 100,
    forceAttemptHTTP2 := true }

/-- The TLS configuration of `defaultConfig` (config.go lines 9-20), which
does set `MinVersion: tls.VersionTLS13` — but is only consulted by
`ConfigureHTTPClientInitializer`, not by the default initializer. -/
def defaultConfigTLS : TLSConf := { minVersion := tlsVersionTLS13, maxVersion := 0 }

/-! ### Definitions: Client, Option and NewClient (client.go lines 72-172) -/

/-- The `Client` fields the option pipeline mutates. Loggers, transports and
traces are identified by `Nat` tokens; `logger = none` models a nil
`*slog.Logger`. -/
structure GClient where
  host : Nat
  development : Bool
  transport : Nat
  timeout : Nat
  logger : Option Nat
  trace : Option Nat
  deriving DecidableEq

/-- An `Option` (client.go lines 83-86): a mutation together with its
execution-order rank. -/
structure COption where
  f : GClient → GClient
  order : Nat

/-- `OptionOrder` constant `Development` (client.go lines 22-28). -/
def orderDevelopment : Nat := 1

/-- `OptionOrder` constant `Logger`. -/
def orderLogger : Nat := 2

/-- `OptionOrder` constant `Transport`. -/
def orderTransport : Nat := 3

/-- `OptionOrder` constant `ClientTimeout`. -/
def orderClientTimeout : Nat := 4

/-- `OptionOrder` constant `ClientTrace`. -/
def orderClientTrace : Nat := 5

/-- `WithDevelopment` (client.go lines 89-98). -/
def withDevelopmentG : COption :=
  { f := fun c => { c with development := true }, order := orderDevelopment }

/-- `WithLogger` (client.go lines 101-110): sets the logger only when the
supplied logger is non-nil. -/
def withLoggerG (lg : Option Nat) : COption :=
  { f := fun c => match lg with
      | some l => { c with logger := some l }
      | none => c,
    order := orderLogger }

/-- `WithTransport` (client.go lines 113-122): sets the transport only when
the supplied round tripper is non-nil. -/
def withTransportG (tr : Option Nat) : COption :=
  { f := fun c => match tr with
      | some t => { c with transport := t }
      | none => c,
    order := orderTransport }

/-- `WithClientTimeout` (client.go lines 125-134). -/
def withClientTimeoutG (t : Nat) : COption :=
  { f := fun c => { c with timeout := t }, order := orderClientTimeout }

/-- `WithClientTrace` (client.go lines 137-148): builds a trace from the
client's current logger and installs it only when the factory returns a
non-nil trace. -/
def withClientTraceG (fac : Option Nat → Option Nat) : COption :=
  { f := fun c => match fac c.logger with
      | some tr => { c with trace := some tr }
      | none => c,
    order := orderClientTrace }

/-- The exported option constructors of client.go; outside the package these
are the only ways to build an `Option` value. -/
inductive ExportedOption : COption → Prop where
  | dev : ExportedOption withDevelopmentG
  | logger (lg : Option Nat) : ExportedOption (withLoggerG lg)
  | transport (tr : Option Nat) : ExportedOption (withTransportG tr)
  | timeout (t : Nat) : ExportedOption (withClientTimeoutG t)
  | trace (fac : Option Nat → Option Nat) : ExportedOption (withClientTraceG fac)

/-- The logger identity of `slog.New(slog.NewTextHandler(io.Discard, nil))`. -/
def discardLoggerId : Nat := 0

/-- The client `NewClient` builds before applying options (client.go lines
156-161): discard logger, no trace, transport from the initializer. -/
def baseClientG (host : Nat) : GClient :=
  { host := host, development := false, transport := 0, timeout := 0,
    logger := some discardLoggerId, trace := none }

/-- The comparison `sort.Slice(opts, ...)` sorts by (client.go lines
164-166). The Go sort is unspecified on equal ranks; insertion sort is one
conforming refinement. -/
def optionOrderLE (a b : COption) : Prop := a.order ≤ b.order

instance : DecidableRel optionOrderLE := fun a b => Nat.decLe a.order b.order

instance : IsTotal COption optionOrderLE := ⟨fun a b => Nat.le_total a.order b.order⟩

instance : IsTrans COption optionOrderLE := ⟨fun _ _ _ => Nat.le_trans⟩

/-- The sorted option list `NewClient` applies. -/
def sortOptions (opts : List COption) : List COption :=
  List.insertionSort optionOrderLE opts

/-- Applying a list of options in sequence. -/
def applyOptionsG (c : GClient) (opts : List COption) : GClient :=
  opts.foldl (fun c o => o.f c) c

/-- `NewClient` (client.go lines 151-172): build the base client, sort the
options ascending by rank, apply each once. -/
def newClientG (host : Nat) (opts : List COption) : GClient :=
  applyOptionsG (baseClientG host) (sortOptions opts)

/-! ### Definitions: the functional-option NewClient variant
(part_001 lines 111-181 and client_trace.go lines 9-18) -/

/-- The older `Option` form: `func(*Client) bool`, where the returned flag
(observed by probing with a nil receiver) asks for the option to be
re-applied after all others. -/
structure FOption where
  f : GClient → GClient
  flag : Bool

/-- Applying the functional options in registration order. -/
def applyOptionsF (c : GClient) (opts : List FOption) : GClient :=
  opts.foldl (fun c o => o.f c) c

/-- The variant `NewClient` (part_001 lines 152-181): one pass in
registration order, remembering the LAST option whose flag is set, then
applying that single option once more. -/
def newClientF (c0 : GClient) (opts : List FOption) : GClient :=
  match (opts.filter (fun o => o.flag)).getLast? with
  | some o => o.f (applyOptionsF c0 opts)
  | none => applyOptionsF c0 opts

/-! ### Definitions: Client.Do (client.go lines 180-191) -/

/-- The request fields `Do` manipulates: the Authorization header bytes and
the trace bound into the request context. -/
structure HRequest where
  authorization : Option (List Nat)
  ctxTrace : Option Nat
  deriving DecidableEq

/-- ASCII bytes of the scheme string `"Bearer "` (client.go line 188). -/
def bearerBytes : List Nat := [66, 101, 97, 114, 101, 114, 32]

/-- Binding the configured trace into the request context, when present. -/
def applyTrace (trace : Option Nat) (req : HRequest) : HRequest :=
  match trace with
  | some t => { req with ctxTrace := some t }
  | none => req

/-- `Client.Do` (client.go lines 180-191): bind the trace, fetch а token
(`tokenRes` is the `GetToken` result pair), abort on error, otherwise set
the Authorization header and delegate to the underlying client
(`transport`), returning its response/error pair unchanged. -/
def clientDo (trace : Option Nat) (tokenRes : List Nat × Option Nat)
    (transport : HRequest → Option Nat × Option Nat) (req : HRequest) :
    Option Nat × Option Nat :=
  match tokenRes with
  | (_, some e) => (none, some e)
  | (tok, none) =>
      transport { applyTrace trace req with authorization := some (bearerBytes ++ tok) }

/-! ### Definitions: concrete instances used by witnesses and
counterexamples -/

/-- A signer that always succeeds with a fixed signature. -/
def sgOk : List Nat → Except Nat (List Nat) := fun _ => .ok [1, 2, 3]

/-- A signer that always fails with error id 7. -/
def sgErr : List Nat → Except Nat (List Nat) := fun _ => .error 7

/-- A provider state holding a valid cached token (`"t"`, expiry 10ns). -/
def pValid : TokenProviderState :=
  { keyID := [65], teamID := [84], tokenTTL := tokenTTLns,
    currentToken := [116], expiresAt := 10 }

/-- A fresh provider for key id `"A"` and team id `"T"`. -/
def pFresh : TokenProviderState := newProviderState [65] [84]

/-- A trace factory that records the logger it observed. -/
def traceFac : Option Nat → Option Nat := fun lg => some (lg.getD 99)

/-- A flagged (dependent) functional option that increments the timeout,
making a second application observable. -/
def fOptIncr : FOption := { f := fun c => { c with timeout := c.timeout + 1 }, flag := true }

/-- A flagged (dependent) functional option that sets development mode. -/
def fOptDev : FOption := { f := fun c => { c with development := true }, flag := true }

/-! ### Theorems: base64url -/

theorem b64inv_b64char : ∀ s < 64, b64inv (b64char s) = s := by decide

theorem b64char_ne_dot (n : Nat) : b64char n ≠ 46 := by
  unfold b64char
  split
  · omega
  · split
    · omega
    · split
      · omega
      · split <;> omega

theorem b64char_ne_pad (n : Nat) : b64char n ≠ 61 := by
  unfold b64char
  split
  · omega
  · split
    · omega
    · split
      · omega
      · split <;> omega

theorem base64url_not_mem_dot : ∀ l : List Nat, 46 ∉ base64url l := by
  intro l
  induction l using base64url.induct with
  | case1 => simp [base64url]
  | case2 x =>
      simp only [base64url, List.mem_cons, List.not_mem_nil, or_false]
      exact fun h => h.elim (fun h1 => b64char_ne_dot _ h1.symm)
        (fun h1 => b64char_ne_dot _ h1.symm)
  | case3 x y =>
      simp only [base64url, List.mem_cons, List.not_mem_nil, or_false]
      intro h
      rcases h with h1 | h1 | h1 <;> exact b64char_ne_dot _ h1.symm
  | case4 x y z rest ih =>
      simp only [base64url, List.mem_cons]
      intro h
      rcases h with h1 | h1 | h1 | h1 | h1
      · exact b64char_ne_dot _ h1.symm
      · exact b64char_ne_dot _ h1.symm
      · exact b64char_ne_dot _ h1.symm
      · exact b64char_ne_dot _ h1.symm
      · exact ih h1

theorem base64url_not_mem_pad : ∀ l : List Nat, 61 ∉ base64url l := by
  intro l
  induction l using base64url.induct with
  | case1 => simp [base64url]
  | case2 x =>
      simp only [base64url, List.mem_cons, List.not_mem_nil, or_false]
      exact fun h => h.elim (fun h1 => b64char_ne_pad _ h1.symm)
        (fun h1 => b64char_ne_pad _ h1.symm)
  | case3 x y =>
      simp only [base64url, List.mem_cons, List.not_mem_nil, or_false]
      intro h
      rcases h with h1 | h1 | h1 <;> exact b64char_ne_pad _ h1.symm
  | case4 x y z rest ih =>
      simp only [base64url, List.mem_cons]
      intro h
      rcases h with h1 | h1 | h1 | h1 | h1
      · exact b64char_ne_pad _ h1.symm
      · exact b64char_ne_pad _ h1.symm
      · exact b64char_ne_pad _ h1.symm
      · exact b64char_ne_pad _ h1.symm
      · exact ih h1

/-- Round trip: decoding an encoded byte list recovers the bytes. -/
theorem base64urlDecode_base64url :
    ∀ l : List Nat, (∀ b ∈ l, b < 256) → base64urlDecode (base64url l) = l := by
  intro l
  induction l using base64url.induct with
  | case1 => intro _; rfl
  | case2 x =>
      intro hb
      have hx : x < 256 := hb x (by simp)
      simp only [base64url, base64urlDecode]
      rw [b64inv_b64char _ (by omega), b64inv_b64char _ (by omega)]
      congr 1
      omega
  | case3 x y =>
      intro hb
      have hx : x < 256 := hb x (by simp)
      have hy : y < 256 := hb y (by simp)
      simp only [base64url, base64urlDecode]
      rw [b64inv_b64char _ (by omega), b64inv_b64char _ (by omega),
        b64inv_b64char _ (by omega)]
      congr 1
      · omega
      · congr 1
        omega
  | case4 x y z rest ih =>
      intro hb
      have hx : x < 256 := hb x (by simp)
      have hy : y < 256 := hb y (by simp)
      have hz : z < 256 := hb z (by simp)
      have hrest : ∀ b ∈ rest, b < 256 := fun b h => hb b (by simp [h])
      simp only [base64url, base64urlDecode]
      rw [b64inv_b64char _ (by omega), b64inv_b64char _ (by omega),
        b64inv_b64char _ (by omega), b64inv_b64char _ (by omega)]
      refine congrArg₂ _ (by omega) ?_
      refine congrArg₂ _ (by omega) ?_
      refine congrArg₂ _ (by omega) ?_
      exact ih hrest

/-- Injectivity of the unpadded base64url encoding on byte lists. -/
theorem base64url_inj {l1 l2 : List Nat} (h1 : ∀ b ∈ l1, b < 256)
    (h2 : ∀ b ∈ l2, b < 256) (h : base64url l1 = base64url l2) : l1 = l2 := by
  have := congrArg base64urlDecode h
  rwa [base64urlDecode_base64url l1 h1, base64urlDecode_base64url l2 h2] at this

/-! ### Theorems: JSON marshalling -/

theorem hexDigit_lt_256 (n : Nat) (h : n < 16) : hexDigit n < 256 := by
  unfold hexDigit
  split <;> omega

theorem escapeByte_lt_256 (b : Nat) (hb : b < 256) : ∀ c ∈ escapeByte b, c < 256 := by
  have h1 : hexDigit (b / 16) < 256 := hexDigit_lt_256 _ (by omega)
  have h2 : hexDigit (b % 16) < 256 := hexDigit_lt_256 _ (by omega)
  intro c hc
  unfold escapeByte at hc
  split at hc
  · simp only [List.mem_cons, List.not_mem_nil, or_false] at hc
    rcases hc with rfl | rfl <;> omega
  · split at hc
    · simp only [List.mem_cons, List.not_mem_nil, or_false] at hc
      rcases hc with rfl | rfl <;> omega
    · split at hc
      · simp only [List.mem_cons, List.not_mem_nil, or_false] at hc
        rcases hc with rfl | rfl <;> omega
      · split at hc
        · simp only [List.mem_cons, List.not_mem_nil, or_false] at hc
          rcases hc with rfl | rfl <;> omega
        · split at hc
          · simp only [List.mem_cons, List.not_mem_nil, or_false] at hc
            rcases hc with rfl | rfl <;> omega
          · split at hc
            · simp only [List.mem_cons, List.not_mem_nil, or_false] at hc
              rcases hc with rfl | rfl | rfl | rfl | rfl | rfl <;> omega
            · simp only [List.mem_cons, List.not_mem_nil, or_false] at hc
              omega

theorem jsonEscape_lt_256 (s : List Nat) (hs : ∀ b ∈ s, b < 256) :
    ∀ c ∈ jsonEscape s, c < 256 := by
  induction s with
  | nil => intro c hc; simp [jsonEscape] at hc
  | cons b t ih =>
      intro c hc
      simp only [jsonEscape, List.foldr_cons] at hc
      rw [List.mem_append] at hc
      rcases hc with hc | hc
      · exact escapeByte_lt_256 b (hs b (by simp)) c hc
      · exact ih (fun x hx => hs x (by simp [hx])) c hc

theorem digitsVal_aux (l : List Nat) :
    ∀ acc : Nat, l.foldl (fun acc d => acc * 10 + (d - 48)) acc =
      acc * 10 ^ l.length + digitsVal l := by
  induction l with
  | nil => intro acc; simp [digitsVal]
  | cons d t ih =>
      intro acc
      simp only [List.foldl_cons, List.length_cons, digitsVal]
      rw [ih, ih (0 * 10 + (d - 48))]
      ring

theorem digitsVal_natDigits (n : Nat) : digitsVal (natDigits n) = n := by
  induction n using Nat.strong_induction_on with
  | _ n ih =>
      by_cases h : n < 10
      · rw [natDigits]
        simp only [h, dite_true, digitsVal, List.foldl_cons, List.foldl_nil]
        omega
      · rw [natDigits]
        simp only [h, dite_false]
        have hd : n / 10 < n := Nat.div_lt_self (by omega) (by omega)
        have := ih (n / 10) hd
        unfold digitsVal
        rw [List.foldl_append]
        simp only [List.foldl_cons, List.foldl_nil]
        rw [digitsVal_aux]
        unfold digitsVal at this
        rw [digitsVal_aux, Nat.zero_mul, Nat.zero_add] at this
        rw [this]
        omega

theorem natDigits_inj {a b : Nat} (h : natDigits a = natDigits b) : a = b := by
  have := congrArg digitsVal h
  rwa [digitsVal_natDigits, digitsVal_natDigits] at this

theorem natDigits_ne_nil (n : Nat) : natDigits n ≠ [] := by
  rw [natDigits]
  split <;> simp

theorem natDigits_length_pos (n : Nat) : 0 < (natDigits n).length := by
  cases h : natDigits n with
  | nil => exact absurd h (natDigits_ne_nil n)
  | cons a t => simp

theorem natDigits_lt_256 (n : Nat) : ∀ c ∈ natDigits n, c < 256 := by
  induction n using Nat.strong_induction_on with
  | _ n ih =>
      intro c hc
      rw [natDigits] at hc
      by_cases h : n < 10
      · simp [h] at hc; omega
      · simp only [h, dite_false, List.mem_append] at hc
        rcases hc with hc | hc
        · exact ih (n / 10) (Nat.div_lt_self (by omega) (by omega)) c hc
        · simp at hc; omega

theorem allLt_append {l1 l2 : List Nat} (h1 : ∀ c ∈ l1, c < 256)
    (h2 : ∀ c ∈ l2, c < 256) : ∀ c ∈ l1 ++ l2, c < 256 := by
  intro c hc
  rcases List.mem_append.mp hc with h | h
  · exact h1 c h
  · exact h2 c h

theorem jsonStringLit_lt_256 (s : List Nat) (hs : ∀ b ∈ s, b < 256) :
    ∀ c ∈ jsonStringLit s, c < 256 := by
  unfold jsonStringLit
  apply allLt_append
  · apply allLt_append
    · decide
    · exact jsonEscape_lt_256 s hs
  · decide

theorem jsonPayload_lt_256 (iss : List Nat) (iat : Nat)
    (hiss : ∀ b ∈ iss, b < 256) : ∀ c ∈ jsonPayload iss iat, c < 256 := by
  unfold jsonPayload
  split
  · split
    · decide
    · apply allLt_append
      · apply allLt_append
        · decide
        · exact natDigits_lt_256 iat
      · decide
  · split
    · apply allLt_append
      · apply allLt_append
        · decide
        · exact jsonStringLit_lt_256 iss hiss
      · decide
    · apply allLt_append
      · apply allLt_append
        · apply allLt_append
          · apply allLt_append
            · apply allLt_append
              · decide
              · exact jsonStringLit_lt_256 iss hiss
            · decide
          · decide
        · exact natDigits_lt_256 iat
      · decide

theorem jsonHeader_lt_256 (alg kid : List Nat) (ha : ∀ b ∈ alg, b < 256)
    (hk : ∀ b ∈ kid, b < 256) : ∀ c ∈ jsonHeader alg kid, c < 256 := by
  unfold jsonHeader
  apply allLt_append
  · apply allLt_append
    · apply allLt_append
      · apply allLt_append
        · apply allLt_append
          · decide
          · exact jsonStringLit_lt_256 alg ha
        · decide
      · decide
    · exact jsonStringLit_lt_256 kid hk
  · decide

/-- Injectivity of the payload serialization in its `iat` argument: two
payloads with the same issuer and different issued-at values serialize to
different JSON byte strings. -/
theorem jsonPayload_iat_inj {iss : List Nat} {a b : Nat}
    (h : jsonPayload iss a = jsonPayload iss b) : a = b := by
  by_cases ha : a = 0 <;> by_cases hb : b = 0
  · omega
  · exfalso
    have hlen := congrArg List.length h
    unfold jsonPayload at hlen
    have hda := natDigits_length_pos b
    by_cases hiss : iss = [] <;>
      simp [hiss, ha, hb, List.length_append, iatKey, issKey, jsonStringLit] at hlen
  · exfalso
    have hlen := congrArg List.length h
    unfold jsonPayload at hlen
    have hda := natDigits_length_pos a
    by_cases hiss : iss = [] <;>
      simp [hiss, ha, hb, List.length_append, iatKey, issKey, jsonStringLit] at hlen
  · unfold jsonPayload at h
    by_cases hiss : iss = []
    · simp only [hiss, if_true, ha, hb, if_false] at h
      exact natDigits_inj (List.append_cancel_left (List.append_cancel_right h))
    · simp only [hiss, if_false, ha, hb] at h
      exact natDigits_inj (List.append_cancel_left (List.append_cancel_right h))

/-- Cancellation through a separator byte: if two lists free of the byte
`d` are joined to suffixes by `d`, equality of the joins forces equality of
both halves. -/
theorem append_sep_inj {d : Nat} : ∀ {a b x y : List Nat}, d ∉ a → d ∉ b →
    a ++ d :: x = b ++ d :: y → a = b ∧ x = y := by
  intro a
  induction a with
  | nil =>
      intro b x y _ hb h
      cases b with
      | nil => simpa using h
      | cons c t =>
          exfalso
          simp only [List.nil_append, List.cons_append, List.cons.injEq] at h
          exact hb (h.1 ▸ List.mem_cons_self c t)
  | cons c t ih =>
      intro b x y ha hb h
      cases b with
      | nil =>
          exfalso
          simp only [List.cons_append, List.nil_append, List.cons.injEq] at h
          exact ha (h.1 ▸ List.mem_cons_self c t)
      | cons c2 t2 =>
          simp only [List.cons_append, List.cons.injEq] at h
          have ha2 : d ∉ t := fun hm => ha (List.mem_cons_of_mem c hm)
          have hb2 : d ∉ t2 := fun hm => hb (List.mem_cons_of_mem c2 hm)
          obtain ⟨he, hx⟩ := ih ha2 hb2 h.2
          exact ⟨by rw [h.1, he], hx⟩

/-! ### Theorems: signer and token provider helpers -/

theorem fillBytes_length : ∀ (w n : Nat), (fillBytes n w).length = w := by
  intro w
  induction w with
  | zero => intro n; rfl
  | succ w2 ih =>
      intro n
      simp only [fillBytes, List.length_append, List.length_cons, List.length_nil]
      rw [ih (n / 256)]

/-- A cache hit returns the cached token and leaves the state unchanged,
for every signer (so no signing can have occurred). -/
theorem getToken_cache_hit (p : TokenProviderState)
    (signer : List Nat → Except Nat (List Nat)) (now : Nat)
    (hne : p.currentToken ≠ []) (hlt : now < p.expiresAt) :
    getToken p signer now = ((p.currentToken, none), p) := by
  unfold getToken
  rw [if_pos ⟨hne, hlt⟩]

/-- A successful mint returns the freshly encoded token (payload issued-at
`unixSeconds now`) and stores it with expiry `now + tokenTTL`. -/
theorem getToken_mint (p : TokenProviderState)
    (signer : List Nat → Except Nat (List Nat)) (now : Nat) (sig : List Nat)
    (htrig : p.currentToken = [] ∨ p.expiresAt ≤ now)
    (hsig : signer (signingInput p now) = .ok sig) :
    getToken p signer now = ((mintedToken p now sig, none),
      { p with currentToken := mintedToken p now sig,
               expiresAt := now + p.tokenTTL }) := by
  unfold getToken
  have hcond : ¬(p.currentToken ≠ [] ∧ now < p.expiresAt) := by
    rcases htrig with h | h
    · exact fun hc => hc.1 h
    · exact fun hc => absurd hc.2 (by omega)
  rw [if_neg hcond]
  unfold signingInput at hsig
  simp only [List.append_assoc] at hsig
  simp only [signedString, hsig, mintedToken, signingInput, List.append_assoc]

/-- A failed mint returns the empty token with the wrapped signing error
and leaves the cache state exactly as it was. -/
theorem getToken_mint_failed (p : TokenProviderState)
    (signer : List Nat → Except Nat (List Nat)) (now : Nat) (e : Nat)
    (htrig : p.currentToken = [] ∨ p.expiresAt ≤ now)
    (hsig : signer (signingInput p now) = .error e) :
    getToken p signer now =
      (([], some (.signJWTFailed (.signDataFailed e))), p) := by
  unfold getToken
  have hcond : ¬(p.currentToken ≠ [] ∧ now < p.expiresAt) := by
    rcases htrig with h | h
    · exact fun hc => hc.1 h
    · exact fun hc => absurd hc.2 (by omega)
  rw [if_neg hcond]
  unfold signingInput at hsig
  simp only [List.append_assoc] at hsig
  simp only [signedString, List.append_assoc, hsig]

/-- Two minted tokens from the same provider configuration are equal only
if they encode the same issued-at second. -/
theorem mintedToken_iat_inj (p : TokenProviderState) (n1 n2 : Nat)
    (sig1 sig2 : List Nat) (hteam : ∀ b ∈ p.teamID, b < 256)
    (h : mintedToken p n1 sig1 = mintedToken p n2 sig2) :
    unixSeconds n1 = unixSeconds n2 := by
  unfold mintedToken signingInput at h
  simp only [List.append_assoc, List.singleton_append] at h
  have hH := base64url_not_mem_dot (jsonHeader algES256 p.keyID)
  obtain ⟨-, h2⟩ := append_sep_inj hH hH h
  have hP1 := base64url_not_mem_dot (jsonPayload p.teamID (unixSeconds n1))
  have hP2 := base64url_not_mem_dot (jsonPayload p.teamID (unixSeconds n2))
  obtain ⟨h3, -⟩ := append_sep_inj hP1 hP2 h2
  have hb1 := jsonPayload_lt_256 p.teamID (unixSeconds n1) hteam
  have hb2 := jsonPayload_lt_256 p.teamID (unixSeconds n2) hteam
  exact jsonPayload_iat_inj (base64url_inj hb1 hb2 h3)

/-! ### Theorems: option pipeline helpers -/

/-- Two sorted option lists that are permutations of each other and have
pairwise distinct ranks are equal. -/
theorem sorted_perm_eq : ∀ {s1 s2 : List COption},
    List.Sorted optionOrderLE s1 → List.Sorted optionOrderLE s2 →
    s1.Perm s2 → (s1.map COption.order).Nodup → s1 = s2 := by
  intro s1
  induction s1 with
  | nil =>
      intro s2 _ _ hperm _
      exact (hperm.symm.eq_nil).symm
  | cons a t1 ih =>
      intro s2 hs1 hs2 hperm hnd
      cases s2 with
      | nil => exact absurd hperm.eq_nil (by simp)
      | cons b t2 =>
          by_cases hab : a = b
          · subst hab
            have ht := hperm.cons_inv
            have hrec := ih hs1.of_cons hs2.of_cons ht (by
              simp only [List.map_cons, List.nodup_cons] at hnd
              exact hnd.2)
            rw [hrec]
          · have haIn : a ∈ b :: t2 := hperm.mem_iff.mp (List.mem_cons_self a t1)
            have haT2 : a ∈ t2 := by
              rcases List.mem_cons.mp haIn with h | h
              · exact absurd h hab
              · exact h
            have hbIn : b ∈ a :: t1 := hperm.mem_iff.mpr (List.mem_cons_self b t2)
            have hbT1 : b ∈ t1 := by
              rcases List.mem_cons.mp hbIn with h | h
              · exact absurd h.symm hab
              · exact h
            have h1 : a.order ≤ b.order := (List.sorted_cons.mp hs1).1 b hbT1
            have h2 : b.order ≤ a.order := (List.sorted_cons.mp hs2).1 a haT2
            have heq : a.order = b.order := Nat.le_antisymm h1 h2
            simp only [List.map_cons, List.nodup_cons] at hnd
            have hbMem : a.order ∈ t1.map COption.order := by
              rw [heq]
              exact List.mem_map_of_mem COption.order hbT1
            exact absurd hbMem hnd.1

/-- Sorting is invariant under permutation of the input when ranks are
pairwise distinct. -/
theorem sortOptions_perm_eq {l1 l2 : List COption} (hperm : l1.Perm l2)
    (hnd : (l1.map COption.order).Nodup) : sortOptions l1 = sortOptions l2 := by
  apply sorted_perm_eq (List.sorted_insertionSort optionOrderLE l1)
    (List.sorted_insertionSort optionOrderLE l2)
  · exact (List.perm_insertionSort optionOrderLE l1).trans
      (hperm.trans (List.perm_insertionSort optionOrderLE l2).symm)
  · have hmapPerm := (List.perm_insertionSort optionOrderLE l1).map COption.order
    exact (hmapPerm.nodup_iff).mpr hnd

/-- Every exported option constructor preserves a non-nil logger. -/
theorem exported_preserves_logger (o : COption) (ho : ExportedOption o)
    (c : GClient) (h : c.logger.isSome) : ((o.f c).logger).isSome := by
  cases ho with
  | dev => simpa [withDevelopmentG] using h
  | logger lg =>
      cases lg with
      | some l => simp [withLoggerG]
      | none => simpa [withLoggerG] using h
  | transport tr =>
      cases tr with
      | some t => simpa [withTransportG] using h
      | none => simpa [withTransportG] using h
  | timeout t => simpa [withClientTimeoutG] using h
  | trace fac =>
      cases hfac : fac c.logger with
      | some tr => simpa [withClientTraceG, hfac] using h
      | none => simpa [withClientTraceG, hfac] using h

/-- Folding exported options preserves a non-nil logger. -/
theorem applyOptions_preserves_logger : ∀ (opts : List COption),
    (∀ o ∈ opts, ExportedOption o) → ∀ c : GClient, c.logger.isSome →
    ((applyOptionsG c opts).logger).isSome := by
  intro opts
  induction opts with
  | nil => intro _ c h; exact h
  | cons o t ih =>
      intro hall c h
      simp only [applyOptionsG, List.foldl_cons]
      exact ih (fun x hx => hall x (List.mem_cons_of_mem o hx)) (o.f c)
        (exported_preserves_logger o (hall o (List.mem_cons_self o t)) c h)

/-- When the last registered option is flagged, it is the one re-applied. -/
theorem newClientF_last_flagged (c0 : GClient) (opts : List FOption)
    (o : FOption) (hflag : o.flag = true) :
    newClientF c0 (opts ++ [o]) = o.f (applyOptionsF c0 (opts ++ [o])) := by
  unfold newClientF
  rw [List.filter_append]
  have hsingle : List.filter (fun o2 => o2.flag) [o] = [o] := by
    simp [List.filter_cons, hflag]
  rw [hsingle, List.getLast?_concat]

/-! ### Claim theorems -/

/-- C1: `GetToken` returns the cached token unchanged (independently of the
signer, hence without signing) whenever the cache is non-empty and `now` is
strictly before `expiresAt`; otherwise it mints a token whose payload
carries `iat = unixSeconds now`, stores it with `expiresAt = now +
tokenTTL`, the default TTL being 30 minutes; and a mint at any `now ≥
expiresAt` after a previous successful mint returns a token different from
the cached one (its `iat` is fresh). -/
theorem c1_getToken_cache_ttl_expiry :
    (∀ (p : TokenProviderState) (sg : List Nat → Except Nat (List Nat)) (now : Nat),
      p.currentToken ≠ [] → now < p.expiresAt →
      getToken p sg now = ((p.currentToken, none), p)) ∧
    (∀ (p : TokenProviderState) (sg : List Nat → Except Nat (List Nat))
       (now : Nat) (sig : List Nat),
      (p.currentToken = [] ∨ p.expiresAt ≤ now) →
      sg (signingInput p now) = .ok sig →
      getToken p sg now = ((mintedToken p now sig, none),
        { p with currentToken := mintedToken p now sig,
                 expiresAt := now + p.tokenTTL })) ∧
    (∀ keyID teamID : List Nat,
      (newProviderState keyID teamID).tokenTTL = 1800 * 1000000000) ∧
    (∀ (p p1 : TokenProviderState) (sg1 sg2 : List Nat → Except Nat (List Nat))
       (t0 now : Nat) (sig1 sig2 : List Nat),
      p.tokenTTL = tokenTTLns →
      (∀ b ∈ p.teamID, b < 256) →
      (p.currentToken = [] ∨ p.expiresAt ≤ t0) →
      sg1 (signingInput p t0) = .ok sig1 →
      p1 = (getToken p sg1 t0).2 →
      p1.expiresAt ≤ now →
      sg2 (signingInput p1 now) = .ok sig2 →
      (getToken p1 sg2 now).1.1 ≠ p1.currentToken) := by
  refine ⟨getToken_cache_hit, getToken_mint, fun _ _ => rfl, ?_⟩
  intro p p1 sg1 sg2 t0 now sig1 sig2 hTTL hteam htrig h1 hp1 hexp h2
  rw [getToken_mint p sg1 t0 sig1 htrig h1] at hp1
  have hkey : p1.keyID = p.keyID := by rw [hp1]
  have hteam1 : p1.teamID = p.teamID := by rw [hp1]
  have hcur : p1.currentToken = mintedToken p t0 sig1 := by rw [hp1]
  have hexp1 : p1.expiresAt = t0 + p.tokenTTL := by rw [hp1]
  have hmint2 := getToken_mint p1 sg2 now sig2 (Or.inr hexp) h2
  rw [hmint2, hcur]
  simp only [ne_eq]
  intro hEqTok
  have hsameCfg : mintedToken p1 now sig2 = mintedToken p now sig2 := by
    unfold mintedToken signingInput
    rw [hkey, hteam1]
  rw [hsameCfg] at hEqTok
  have hiat := mintedToken_iat_inj p now t0 sig2 sig1 hteam hEqTok
  unfold unixSeconds at hiat
  rw [hexp1, hTTL] at hexp
  unfold tokenTTLns at hexp
  omega

/-- C1 witness: the cache-hit equation, the default TTL, and the
expiry-boundary inequality instantiated at concrete inputs. -/
theorem c1_witness :
    getToken pValid sgOk 5 = ((pValid.currentToken, none), pValid) ∧
    (newProviderState [65] [84]).tokenTTL = 1800 * 1000000000 ∧
    (getToken ((getToken pFresh sgOk 1000000000).2) sgOk
        (1000000000 + tokenTTLns)).1.1 ≠
      ((getToken pFresh sgOk 1000000000).2).currentToken := by
  refine ⟨c1_getToken_cache_ttl_expiry.1 pValid sgOk 5 (by decide) (by decide),
    c1_getToken_cache_ttl_expiry.2.2.1 [65] [84],
    c1_getToken_cache_ttl_expiry.2.2.2 pFresh ((getToken pFresh sgOk 1000000000).2)
      sgOk sgOk 1000000000 (1000000000 + tokenTTLns) [1, 2, 3] [1, 2, 3]
      rfl (by decide) (Or.inl rfl) rfl rfl (by decide) rfl⟩

/-- C2: when the signing step fails, `GetToken` returns the error (wrapped
with context, the underlying error preserved inside the constructors) and
the empty token, and the cache state is exactly what it was before the
call, so a later call re-enters the minting path from scratch. -/
theorem c2_signing_error_leaves_cache_unchanged :
    ∀ (p : TokenProviderState) (sg : List Nat → Except Nat (List Nat))
      (now : Nat) (e : Nat),
      (p.currentToken = [] ∨ p.expiresAt ≤ now) →
      sg (signingInput p now) = .error e →
      getToken p sg now =
        (([], some (.signJWTFailed (.signDataFailed e))), p) :=
  getToken_mint_failed

/-- C2 witness: a failing signer on a fresh provider returns the wrapped
error, the empty token, and the untouched state. -/
theorem c2_witness :
    getToken pFresh sgErr 5 =
      (([], some (.signJWTFailed (.signDataFailed 7))), pFresh) :=
  c2_signing_error_leaves_cache_unchanged pFresh sgErr 5 7 (Or.inl rfl) rfl

/-- C3: `SignedString` produces
`base64url(header JSON).base64url(payload JSON).base64url(signature)` where
the signature is the signer's output on exactly the first two dot-joined
segments; no padding byte occurs anywhere in any produced token; and each
failure (header marshal, payload marshal, signer) yields the empty string
together with an error that structurally wraps the underlying one. -/
theorem c3_signedString_format_and_errors :
    (∀ (h p : List Nat) (sg : List Nat → Except Nat (List Nat)) (sig : List Nat),
      sg (base64url h ++ [46] ++ base64url p) = .ok sig →
      signedString (.ok h) (.ok p) sg =
        (base64url h ++ [46] ++ base64url p ++ [46] ++ base64url sig, none)) ∧
    (∀ (mh mp : Except Nat (List Nat)) (sg : List Nat → Except Nat (List Nat)),
      61 ∉ (signedString mh mp sg).1) ∧
    (∀ (e : Nat) (mp : Except Nat (List Nat)) (sg : List Nat → Except Nat (List Nat)),
      signedString (.error e) mp sg = ([], some (.marshalHeaderFailed e))) ∧
    (∀ (h : List Nat) (e : Nat) (sg : List Nat → Except Nat (List Nat)),
      signedString (.ok h) (.error e) sg = ([], some (.marshalPayloadFailed e))) ∧
    (∀ (h p : List Nat) (sg : List Nat → Except Nat (List Nat)) (e : Nat),
      sg (base64url h ++ [46] ++ base64url p) = .error e →
      signedString (.ok h) (.ok p) sg = ([], some (.signDataFailed e))) := by
  refine ⟨?_, ?_, fun _ _ _ => rfl, fun _ _ _ => rfl, ?_⟩
  · intro h p sg sig hsg
    simp only [signedString, hsg]
  · intro mh mp sg
    match mh with
    | .error e => simp [signedString]
    | .ok h =>
      match mp with
      | .error e => simp [signedString]
      | .ok p =>
        cases hsg : sg (base64url h ++ [46] ++ base64url p) with
        | error e =>
            simp only [signedString, hsg]
            simp
        | ok sig =>
            simp only [signedString, hsg]
            intro hmem
            simp only [List.append_assoc, List.singleton_append] at hmem
            rcases List.mem_append.mp hmem with hm | hm
            · exact base64url_not_mem_pad h hm
            · rcases List.mem_cons.mp hm with hm2 | hm2
              · omega
              · rcases List.mem_append.mp hm2 with hm3 | hm3
                · exact base64url_not_mem_pad p hm3
                · rcases List.mem_cons.mp hm3 with hm4 | hm4
                  · omega
                  · exact base64url_not_mem_pad sig hm4
  · intro h p sg e hsg
    simp only [signedString, hsg]

/-- C3 witness: the success equation and the signer-error propagation at
concrete header, payload and signers. -/
theorem c3_witness :
    signedString (.ok [65]) (.ok [66]) sgOk =
      (base64url [65] ++ [46] ++ base64url [66] ++ [46] ++ base64url [1, 2, 3],
        none) ∧
    signedString (.ok [65]) (.ok [66]) sgErr = ([], some (.signDataFailed 7)) :=
  ⟨c3_signedString_format_and_errors.1 [65] [66] sgOk [1, 2, 3] rfl,
   c3_signedString_format_and_errors.2.2.2.2 [65] [66] sgErr 7 rfl⟩

/-- C4: `Sign` with a nil private key fails with the missing-key error and
no output; with a key whose curve is not 256 bits it fails with the
unsupported-curve error and no output; with a 256-bit-curve key and no
configured hash it hashes with SHA-256, and on `ecdsa.Sign` success returns
the fixed-width big-endian concatenation of the two components, exactly
`2 * ((256 + 7) / 8) = 64` bytes long. -/
theorem c4_signerECDSA_sign :
    (∀ (hashAvail : Bool) (hf sf : List Nat → List Nat)
       (ec : List Nat → Except Nat (Nat × Nat)) (data : List Nat),
      signerECDSASign none hashAvail hf sf ec data = .error .missingKey) ∧
    (∀ (k : ECKey) (hashAvail : Bool) (hf sf : List Nat → List Nat)
       (ec : List Nat → Except Nat (Nat × Nat)) (data : List Nat),
      k.curveBits ≠ 256 →
      signerECDSASign (some k) hashAvail hf sf ec data =
        .error (.unsupportedCurve k.curveBits)) ∧
    (∀ (k : ECKey) (hf sf : List Nat → List Nat)
       (ec : List Nat → Except Nat (Nat × Nat)) (data : List Nat) (r s : Nat),
      k.curveBits = 256 →
      ec (sf data) = .ok (r, s) →
      signerECDSASign (some k) false hf sf ec data =
        .ok (fillBytes r 32 ++ fillBytes s 32) ∧
      (fillBytes r 32 ++ fillBytes s 32).length = 64) := by
  refine ⟨fun _ _ _ _ _ => rfl, ?_, ?_⟩
  · intro k hashAvail hf sf ec data hk
    simp only [signerECDSASign, hk, if_true, ne_eq, not_false_iff, if_pos]
  · intro k hf sf ec data r s hk hec
    refine ⟨?_, ?_⟩
    · simp [signerECDSASign, hk, hec]
    · rw [List.length_append, fillBytes_length, fillBytes_length]

/-- C4 witness: the three behaviours at concrete keys, hash functions and
a concrete signing oracle. -/
theorem c4_witness :
    signerECDSASign none true id id (fun _ => .ok (5, 6)) [9] =
      .error .missingKey ∧
    signerECDSASign (some { curveBits := 384 }) true id id
      (fun _ => .ok (5, 6)) [9] = .error (.unsupportedCurve 384) ∧
    signerECDSASign (some { curveBits := 256 }) false id id
      (fun _ => .ok (5, 6)) [9] = .ok (fillBytes 5 32 ++ fillBytes 6 32) ∧
    (fillBytes 5 32 ++ fillBytes 6 32).length = 64 := by
  refine ⟨c4_signerECDSA_sign.1 true id id (fun _ => .ok (5, 6)) [9],
    c4_signerECDSA_sign.2.1 { curveBits := 384 } true id id
      (fun _ => .ok (5, 6)) [9] (by decide), ?_, ?_⟩
  · exact (c4_signerECDSA_sign.2.2 { curveBits := 256 } id id
      (fun _ => .ok (5, 6)) [9] 5 6 rfl rfl).1
  · exact (c4_signerECDSA_sign.2.2 { curveBits := 256 } id id
      (fun _ => .ok (5, 6)) [9] 5 6 rfl rfl).2

/-- C5: the claim asserts that the default-built client enforces minimum
TLS 1.3. The code (client.go line 38) sets only `MaxVersion:
tls.VersionTLS13`, so the effective client minimum stays at Go's default of
TLS 1.2 — contradicting the code's own comment "Use TLS 1.3 only" and the
intent shown by `defaultConfig` (config.go), which does set `MinVersion:
tls.VersionTLS13`. HTTP/2 is attempted as claimed. -/
theorem c5_default_transport_min_version :
    effectiveClientMinVersion defaultInitializerTransport.tlsClientConfig =
      tlsVersionTLS12 ∧
    effectiveClientMinVersion defaultInitializerTransport.tlsClientConfig ≠
      tlsVersionTLS13 ∧
    defaultInitializerTransport.tlsClientConfig.minVersion = 0 ∧
    defaultInitializerTransport.tlsClientConfig.maxVersion = tlsVersionTLS13 ∧
    defaultInitializerTransport.forceAttemptHTTP2 = true ∧
    effectiveClientMinVersion defaultConfigTLS = tlsVersionTLS13 := by
  decide

/-- C6 counterexample: in the functional-option pipeline both `fOptIncr`
and `fOptDev` are flagged dependent; if every dependent option were applied
a second time after the pass the timeout would be 2, but the code re-applies
only the last flagged option, so the timeout stays 1. -/
theorem c6_counterexample :
    (newClientF (baseClientG 0) [fOptIncr, fOptDev]).timeout = 1 ∧
    (newClientF (baseClientG 0) [fOptIncr, fOptDev]).timeout ≠ 2 := by
  decide

/-- C6 (amended): in the rank-based pipeline (client.go) the applied list is
sorted ascending by rank and is a permutation of the registered options
(each applied exactly once, no second pass); in the functional-option
pipeline (part_001) options run in registration order and only the LAST
flagged option is re-applied after the pass — when no option is flagged
there is no second application at all. -/
theorem c6_option_application_order :
    (∀ opts : List COption,
      List.Sorted (· ≤ ·) ((sortOptions opts).map COption.order)) ∧
    (∀ opts : List COption, (sortOptions opts).Perm opts) ∧
    (∀ (host : Nat) (opts : List COption),
      newClientG host opts = applyOptionsG (baseClientG host) (sortOptions opts)) ∧
    (∀ (c0 : GClient) (opts : List FOption) (o : FOption), o.flag = true →
      newClientF c0 (opts ++ [o]) = o.f (applyOptionsF c0 (opts ++ [o]))) ∧
    (∀ (c0 : GClient) (opts : List FOption),
      (∀ o ∈ opts, o.flag = false) → newClientF c0 opts = applyOptionsF c0 opts) := by
  refine ⟨?_, fun opts => List.perm_insertionSort optionOrderLE opts,
    fun _ _ => rfl, newClientF_last_flagged, ?_⟩
  · intro opts
    have hs := List.sorted_insertionSort optionOrderLE opts
    unfold List.Sorted at hs ⊢
    rw [List.pairwise_map]
    exact hs
  · intro c0 opts hflags
    unfold newClientF
    have hfilter : opts.filter (fun o => o.flag) = [] := by
      rw [List.filter_eq_nil_iff]
      intro o ho
      simp [hflags o ho]
    rw [hfilter]
    rfl

/-- C6 witness: the sortedness and permutation facts at a concrete option
list, and the last-flagged re-application at concrete flagged options. -/
theorem c6_witness :
    List.Sorted (· ≤ ·)
      ((sortOptions [withClientTimeoutG 9, withDevelopmentG]).map COption.order) ∧
    (sortOptions [withClientTimeoutG 9, withDevelopmentG]).Perm
      [withClientTimeoutG 9, withDevelopmentG] ∧
    newClientF (baseClientG 0) ([fOptDev] ++ [fOptIncr]) =
      fOptIncr.f (applyOptionsF (baseClientG 0) ([fOptDev] ++ [fOptIncr])) :=
  ⟨c6_option_application_order.1 [withClientTimeoutG 9, withDevelopmentG],
   c6_option_application_order.2.1 [withClientTimeoutG 9, withDevelopmentG],
   c6_option_application_order.2.2.2.1 (baseClientG 0) [fOptDev] fOptIncr rfl⟩

/-- C7 counterexample: two logger options share the rank `orderLogger`, so
sorting cannot separate them and the final logger depends on registration
order — the two permutations of the same option set yield different
clients. -/
theorem c7_counterexample :
    newClientG 0 [withLoggerG (some 1), withLoggerG (some 2)] ≠
      newClientG 0 [withLoggerG (some 2), withLoggerG (some 1)] := by
  decide

/-- C7 (amended): registration order is irrelevant for option sets whose
ranks are pairwise distinct (any permutation yields the identical client);
with duplicate ranks the final state can depend on registration order. The
spec's logger/trace instance holds, their ranks being distinct: registering
`logger L` and the trace option in either order installs a trace built from
`L`. -/
theorem c7_option_order_insensitive :
    (∀ (host : Nat) (l1 l2 : List COption), l1.Perm l2 →
      (l1.map COption.order).Nodup → newClientG host l1 = newClientG host l2) ∧
    ((newClientG 0 [withLoggerG (some 7), withClientTraceG traceFac]).trace =
      some 7 ∧
     (newClientG 0 [withClientTraceG traceFac, withLoggerG (some 7)]).trace =
      some 7) := by
  constructor
  · intro host l1 l2 hperm hnd
    unfold newClientG
    rw [sortOptions_perm_eq hperm hnd]
  · constructor <;> decide

/-- C7 witness: permutation insensitivity instantiated at a concrete
two-option set with distinct ranks. -/
theorem c7_witness :
    newClientG 3 [withDevelopmentG, withLoggerG (some 5)] =
      newClientG 3 [withLoggerG (some 5), withDevelopmentG] :=
  c7_option_order_insensitive.1 3 [withDevelopmentG, withLoggerG (some 5)]
    [withLoggerG (some 5), withDevelopmentG]
    (List.Perm.swap (withLoggerG (some 5)) withDevelopmentG [])
    (by decide)

/-- C8: `Do` aborts with the token-fetch error and a nil response without
calling the underlying transport (the result is the same for every
transport), and on success dispatches the request with
`Authorization: Bearer <token>` set, returning the underlying client's
response and error unchanged. -/
theorem c8_do_bearer_and_error_shortcircuit :
    (∀ (trace : Option Nat) (tok : List Nat) (e : Nat)
       (transport : HRequest → Option Nat × Option Nat) (req : HRequest),
      clientDo trace (tok, some e) transport req = (none, some e)) ∧
    (∀ (trace : Option Nat) (tok : List Nat)
       (transport : HRequest → Option Nat × Option Nat) (req : HRequest),
      clientDo trace (tok, none) transport req =
        transport { applyTrace trace req with
                    authorization := some (bearerBytes ++ tok) }) :=
  ⟨fun _ _ _ _ _ => rfl, fun _ _ _ _ => rfl⟩

/-- C10: the client's logger is never nil: `NewClient` starts from the
discard logger, `WithLogger(nil)` is a no-op, a trace factory returning nil
leaves the trace unchanged, and any sequence of exported options preserves
a non-nil logger. -/
theorem c10_logger_never_nil :
    (∀ host : Nat, (baseClientG host).logger = some discardLoggerId) ∧
    (∀ c : GClient, (withLoggerG none).f c = c) ∧
    (∀ (c : GClient) (fac : Option Nat → Option Nat),
      fac c.logger = none → (withClientTraceG fac).f c = c) ∧
    (∀ (host : Nat) (opts : List COption), (∀ o ∈ opts, ExportedOption o) →
      ((newClientG host opts).logger).isSome) := by
  refine ⟨fun _ => rfl, fun _ => rfl, ?_, ?_⟩
  · intro c fac hfac
    simp only [withClientTraceG, hfac]
  · intro host opts hall
    unfold newClientG
    apply applyOptions_preserves_logger
    · intro o ho
      exact hall o ((List.perm_insertionSort optionOrderLE opts).mem_iff.mp ho)
    · rfl

/-- C10 witness: the nil-returning trace factory is a no-op on a concrete
client, and a concrete exported-option pipeline keeps the logger non-nil. -/
theorem c10_witness :
    (withClientTraceG (fun _ => none)).f (baseClientG 2) = baseClientG 2 ∧
    ((newClientG 0 [withDevelopmentG, withLoggerG (some 5)]).logger).isSome := by
  refine ⟨c10_logger_never_nil.2.2.1 (baseClientG 2) (fun _ => none) rfl,
    c10_logger_never_nil.2.2.2 0 [withDevelopmentG, withLoggerG (some 5)] ?_⟩
  intro o ho
  simp only [List.mem_cons, List.not_mem_nil, or_false] at ho
  rcases ho with rfl | rfl
  · exact .dev
  · exact .logger (some 5)

end AppleAPI
